import Mathlib

/-!
Verification of the MQ135 gas-sensor driver (src/MQ135.cpp) against its
natural-language specification.

Shallow embedding conventions:
* Floating-point values are modelled as exact rationals (`ℚ`) for the
  conversion pipeline and the calibration loop, and as reals (`ℝ`) for the
  power-law functions that use `pow` with a non-integer exponent.
* The analog sampler (`analogRead`) is an external collaborator: its readings
  appear as explicit parameters (the 12-bit ADC sample on the sensor channel
  and on the fixed reference channel 33).
* The compile-time constants `CORA`, `CORB`, `CORC`, `CORD`, `PARA`, `PARB`,
  `ATMOCO2` live in the header `MQ135.h`, which is not part of the sources
  here; since no claim depends on their numeric values they are passed as
  explicit parameters, so every theorem holds for all values of the
  constants (with the positivity hypotheses the power law needs).
* IEEE-754 special values (needed only by the division-by-zero claim) are
  modelled by a dedicated type `FP` with exact-rational finite values and
  the IEEE propagation rules for infinities and NaN.
-/

namespace MQ135

/-- Embedding of `analogRead(pin) * 2.450 / 4095.` — one 12-bit ADC sample
normalized to the 0–2.45 V scale.  `x` is the raw integer sample. -/
def adcNorm (x : ℕ) : ℚ := (x : ℚ) * (49 / 20) / 4095

/-- Embedding of `MQ135::getResistance` (src/MQ135.cpp:61-68) for fixed raw
samples: `a` is the sensor-channel sample (`analogRead(_pin)`), `aref` the
reference-channel sample (`analogRead(33)`).  The code computes
`Rs = 3. * ref_val * 10.0 / val - 2.`.  (The rational model gives the
junk value `0` to the division by zero; the IEEE behaviour at `a = 0` is
treated separately by `getResistanceFP`.) -/
def getResistance (a aref : ℕ) : ℚ :=
  3 * adcNorm aref * 10 / adcNorm a - 2

/-- Embedding of `MQ135::getCorrectionFactor` (src/MQ135.cpp:50-52):
`CORA * t * t - CORB * t + CORC - (h-33.)*CORD`.  The four correction
coefficients come from the header and are passed explicitly. -/
def getCorrectionFactor (CORA CORB CORC CORD : ℚ) (t h : ℚ) : ℚ :=
  CORA * t * t - CORB * t + CORC - (h - 33) * CORD

/-- Embedding of `MQ135::getCorrectedResistance` (src/MQ135.cpp:81-83):
`getResistance()/getCorrectionFactor(t, h)` for a fixed pair of raw
samples. -/
def getCorrectedResistance (CORA CORB CORC CORD : ℚ) (a aref : ℕ) (t h : ℚ) : ℚ :=
  getResistance a aref / getCorrectionFactor CORA CORB CORC CORD t h

/-- IEEE-754-style floating-point values for the division-by-zero analysis:
finite values are kept as exact rationals (rounding is irrelevant to the
special-value propagation studied here), plus `+∞`, `−∞` and NaN.  Signed
zero is not modelled; all inputs on the studied path are nonnegative, so a
zero always stands for IEEE `+0`. -/
inductive FP where
  | fin : ℚ → FP
  | inf : FP
  | ninf : FP
  | nan : FP
  deriving Repr, DecidableEq

/-- IEEE multiplication on `FP`. -/
def fmul : FP → FP → FP
  | .nan, _ => .nan
  | _, .nan => .nan
  | .fin a, .fin b => .fin (a * b)
  | .fin a, .inf => if 0 < a then .inf else if a < 0 then .ninf else .nan
  | .fin a, .ninf => if 0 < a then .ninf else if a < 0 then .inf else .nan
  | .inf, .fin b => if 0 < b then .inf else if b < 0 then .ninf else .nan
  | .ninf, .fin b => if 0 < b then .ninf else if b < 0 then .inf else .nan
  | .inf, .inf => .inf
  | .inf, .ninf => .ninf
  | .ninf, .inf => .ninf
  | .ninf, .ninf => .inf

/-- IEEE division on `FP` (divisor zero stands for `+0`): a nonzero finite
value divided by zero gives a signed infinity, `0/0` gives NaN. -/
def fdiv : FP → FP → FP
  | .nan, _ => .nan
  | _, .nan => .nan
  | .fin a, .fin b =>
      if b = 0 then (if 0 < a then .inf else if a < 0 then .ninf else .nan)
      else .fin (a / b)
  | .fin _, .inf => .fin 0
  | .fin _, .ninf => .fin 0
  | .inf, .fin b => if 0 ≤ b then .inf else .ninf
  | .ninf, .fin b => if 0 ≤ b then .ninf else .inf
  | .inf, .inf => .nan
  | .inf, .ninf => .nan
  | .ninf, .inf => .nan
  | .ninf, .ninf => .nan

/-- IEEE subtraction on `FP`. -/
def fsub : FP → FP → FP
  | .nan, _ => .nan
  | _, .nan => .nan
  | .fin a, .fin b => .fin (a - b)
  | .fin _, .inf => .ninf
  | .fin _, .ninf => .inf
  | .inf, .fin _ => .inf
  | .ninf, .fin _ => .ninf
  | .inf, .inf => .nan
  | .inf, .ninf => .inf
  | .ninf, .inf => .ninf
  | .ninf, .ninf => .nan

/-- Embedding of `MQ135::getResistance` (src/MQ135.cpp:61-68) with IEEE
special-value semantics, for the raw samples `a` (sensor channel) and
`aref` (reference channel).  The expression mirrors the source exactly:
`val = a*2.450/4095`, `ref_val = aref*2.450/4095`,
`Rs = 3.*ref_val*10.0/val - 2.`; no operand is guarded anywhere on the
path. -/
def getResistanceFP (a aref : ℕ) : FP :=
  fsub
    (fdiv
      (fmul (fmul (.fin 3) (fdiv (fmul (.fin (aref : ℚ)) (.fin (49 / 20))) (.fin 4095)))
        (.fin 10))
      (fdiv (fmul (.fin (a : ℚ)) (.fin (49 / 20))) (.fin 4095)))
    (.fin 2)

/-- Embedding of `MQ135::getPPM` (src/MQ135.cpp:92-94):
`PARA * pow(getResistance()/_rzero, -PARB)`, for a fixed resistance sample
`rs` and stored calibration value `rzero`.  `pow` with a real exponent is
modelled by `Real.rpow`. -/
noncomputable def getPPM (PARA PARB rs rzero : ℝ) : ℝ :=
  PARA * (rs / rzero) ^ (-PARB)

/-- Embedding of `MQ135::getRZero` (src/MQ135.cpp:118-120):
`getResistance() * pow(ATMOCO2/PARA, 1./PARB)` for a fixed resistance
sample `rs`.  It reads no mutable state: in the source the only mutable
field `_rzero` is neither read nor written here, which the embedding
reflects by not taking `rzero` at all. -/
noncomputable def getRZero (PARA PARB ATMOCO2 rs : ℝ) : ℝ :=
  rs * (ATMOCO2 / PARA) ^ ((1 : ℝ) / PARB)

/-- State left behind by the calibration loop of `MQ135::calibrateRZero`:
`it` is the final value of the C++ loop counter (a `break` leaves it at the
index of the breaking iteration; exhaustion leaves it at the bound),
`iters` is the number of loop-body executions, `rzero` the final `_rzero`,
and `yields` the number of `vTaskDelay` calls made. -/
structure CalibState where
  it : ℕ
  iters : ℕ
  rzero : ℚ
  yields : ℕ
  deriving Repr, DecidableEq

/-- The break test of the loop body (src/MQ135.cpp:144-150): with a
negative step the loop stops once `measurement <= cal_ppm`, otherwise once
`measurement >= cal_ppm`. -/
def crossed (step m cal : ℚ) : Bool :=
  if step < 0 then decide (m ≤ cal) else decide (cal ≤ m)

/-- The `for` loop of `MQ135::calibrateRZero` (src/MQ135.cpp:141-154),
recursing on the remaining fuel (`10000 − it` at the top call).
`measure k r` stands for the value returned by the `k`-th call to
`getCorrectedPPM(t, h)` in this run when the stored `_rzero` is `r` (call 0
happens before the loop, the iteration with counter `it` makes call
`it + 1`); keeping the call index abstract models the fresh — possibly
noisy — analog sample taken on every iteration.  Each body execution first
does `_rzero += step`, then takes the fresh measurement, then the break
test, and only then (on the non-break path) the every-30th-iteration
`vTaskDelay(1)`. -/
def calibLoop (measure : ℕ → ℚ → ℚ) (cal step : ℚ) :
    ℕ → ℕ → ℚ → ℕ → CalibState
  | 0, it, r, y => ⟨it, it, r, y⟩
  | fuel + 1, it, r, y =>
      if crossed step (measure (it + 1) (r + step)) cal then
        ⟨it, it + 1, r + step, y⟩
      else
        calibLoop measure cal step fuel (it + 1) (r + step)
          (if it % 30 = 0 then y + 1 else y)

/-- The step chosen before the loop (src/MQ135.cpp:139):
`(measurement > cal_ppm) ? -.1 : +.1` applied to the initial measurement
(call index 0, `_rzero` still at its pre-call value). -/
def calibStep (measure : ℕ → ℚ → ℚ) (cal r0 : ℚ) : ℚ :=
  if cal < measure 0 r0 then -(1 / 10) else 1 / 10

/-- Result of `MQ135::calibrateRZero`: the returned success flag and the
final mutable state. -/
structure CalibResult where
  success : Bool
  state : CalibState
  deriving Repr, DecidableEq

/-- Embedding of `MQ135::calibrateRZero` (src/MQ135.cpp:137-162) for a run
with fixed `t`, `h` (folded into `measure`), target `cal` and initial
`_rzero` value `r0`.  After the loop the code returns `it < 1000`. -/
def calibrateRZero (measure : ℕ → ℚ → ℚ) (cal r0 : ℚ) : CalibResult :=
  let st := calibLoop measure cal (calibStep measure cal r0) 10000 0 r0 0
  ⟨decide (st.it < 1000), st⟩

/-- Number of multiples of 30 in `[0, b)` — the yield count of a run whose
final loop counter is `b`. -/
def countM30 : ℕ → ℕ
  | 0 => 0
  | b + 1 => countM30 b + (if b % 30 = 0 then 1 else 0)

/-- A measurement stream for a concrete calibration run: the pre-loop call
and the first in-loop call read 0, every later call reads 2 (a sensor whose
corrected ppm jumps above the target at the second in-loop sample). -/
def mTwo : ℕ → ℚ → ℚ := fun k _ => if k ≤ 1 then 0 else 2

/-- Unfolding equation for one loop-body execution. -/
lemma calibLoop_succ (measure : ℕ → ℚ → ℚ) (cal step : ℚ)
    (fuel it : ℕ) (r : ℚ) (y : ℕ) :
    calibLoop measure cal step (fuel + 1) it r y =
      if crossed step (measure (it + 1) (r + step)) cal then
        ⟨it, it + 1, r + step, y⟩
      else
        calibLoop measure cal step fuel (it + 1) (r + step)
          (if it % 30 = 0 then y + 1 else y) := rfl

/-- The loop advances `iters` by some `k ≤ fuel` executions and `_rzero`
moves linearly: it ends at `r + k·step`. -/
lemma calibLoop_iters_rzero (measure : ℕ → ℚ → ℚ) (cal step : ℚ) :
    ∀ fuel it r y, ∃ k, k ≤ fuel ∧
      (calibLoop measure cal step fuel it r y).iters = it + k ∧
      (calibLoop measure cal step fuel it r y).rzero = r + (k : ℚ) * step := by
  intro fuel
  induction fuel with
  | zero =>
      intro it r y
      exact ⟨0, le_refl 0, by simp [calibLoop], by simp [calibLoop]⟩
  | succ fuel ih =>
      intro it r y
      by_cases hc : crossed step (measure (it + 1) (r + step)) cal
      · have hstate : calibLoop measure cal step (fuel + 1) it r y
            = ⟨it, it + 1, r + step, y⟩ := by
          rw [calibLoop_succ, if_pos hc]
        refine ⟨1, by omega, ?_, ?_⟩
        · rw [hstate]
        · rw [hstate]
          push_cast
          ring
      · have hstate : calibLoop measure cal step (fuel + 1) it r y
            = calibLoop measure cal step fuel (it + 1) (r + step)
                (if it % 30 = 0 then y + 1 else y) := by
          rw [calibLoop_succ, if_neg hc]
        obtain ⟨k, hk, hiters, hrz⟩ := ih (it + 1) (r + step)
          (if it % 30 = 0 then y + 1 else y)
        refine ⟨k + 1, by omega, ?_, ?_⟩
        · rw [hstate, hiters]
          omega
        · rw [hstate, hrz]
          push_cast
          ring

/-- Dichotomy at loop exit: either some iteration broke — the final loop
counter is strictly below the bound, `iters = it + 1`, and the measurement
taken at that very iteration (call index `iters`, `_rzero` already moved)
satisfies the break test — or the fuel was exhausted with the counter at
the bound. -/
lemma calibLoop_exit (measure : ℕ → ℚ → ℚ) (cal step : ℚ) :
    ∀ fuel it r y,
      ((calibLoop measure cal step fuel it r y).it < it + fuel ∧
        (calibLoop measure cal step fuel it r y).iters
          = (calibLoop measure cal step fuel it r y).it + 1 ∧
        crossed step
          (measure (calibLoop measure cal step fuel it r y).iters
            (calibLoop measure cal step fuel it r y).rzero) cal = true)
      ∨ ((calibLoop measure cal step fuel it r y).it = it + fuel ∧
          (calibLoop measure cal step fuel it r y).iters = it + fuel) := by
  intro fuel
  induction fuel with
  | zero =>
      intro it r y
      right
      simp [calibLoop]
  | succ fuel ih =>
      intro it r y
      by_cases hc : crossed step (measure (it + 1) (r + step)) cal
      · have hstate : calibLoop measure cal step (fuel + 1) it r y
            = ⟨it, it + 1, r + step, y⟩ := by
          rw [calibLoop_succ, if_pos hc]
        left
        rw [hstate]
        refine ⟨?_, rfl, hc⟩
        show it < it + (fuel + 1)
        omega
      · have hstate : calibLoop measure cal step (fuel + 1) it r y
            = calibLoop measure cal step fuel (it + 1) (r + step)
                (if it % 30 = 0 then y + 1 else y) := by
          rw [calibLoop_succ, if_neg hc]
        rw [hstate]
        rcases ih (it + 1) (r + step) (if it % 30 = 0 then y + 1 else y) with
          ⟨h1, h2, h3⟩ | ⟨h1, h2⟩
        · exact Or.inl ⟨by omega, h2, h3⟩
        · exact Or.inr ⟨by omega, by omega⟩

/-- No measurement taken strictly before the final body execution passes
the break test: for every executed iteration except the last one, the
fresh measurement (taken at `_rzero = r + d·step`, call index `it + d`)
fails the test. -/
lemma calibLoop_no_early_cross (measure : ℕ → ℚ → ℚ) (cal step : ℚ) :
    ∀ fuel it r y d, 1 ≤ d →
      it + d < (calibLoop measure cal step fuel it r y).iters →
      crossed step (measure (it + d) (r + (d : ℚ) * step)) cal = false := by
  intro fuel
  induction fuel with
  | zero =>
      intro it r y d hd hlt
      exact absurd hlt (by simp [calibLoop])
  | succ fuel ih =>
      intro it r y d hd hlt
      by_cases hc : crossed step (measure (it + 1) (r + step)) cal
      · have hstate : calibLoop measure cal step (fuel + 1) it r y
            = ⟨it, it + 1, r + step, y⟩ := by
          rw [calibLoop_succ, if_pos hc]
        rw [hstate] at hlt
        exact absurd hlt (by simp; omega)
      · have hstate : calibLoop measure cal step (fuel + 1) it r y
            = calibLoop measure cal step fuel (it + 1) (r + step)
                (if it % 30 = 0 then y + 1 else y) := by
          rw [calibLoop_succ, if_neg hc]
        rw [hstate] at hlt
        match d, hd with
        | 1, _ => simpa using hc
        | (n + 2), _ =>
            have hrec := ih (it + 1) (r + step) (if it % 30 = 0 then y + 1 else y)
              (n + 1) (by omega) (by omega)
            have hidx : it + 1 + (n + 1) = it + (n + 2) := by omega
            have harg : r + step + ((n + 1 : ℕ) : ℚ) * step
                = r + ((n + 2 : ℕ) : ℚ) * step := by push_cast; ring
            rw [hidx, harg] at hrec
            exact hrec

lemma countM30_eq (b : ℕ) : countM30 b = (b + 29) / 30 := by
  induction b with
  | zero => simp [countM30]
  | succ b ih =>
      rw [countM30, ih]
      rcases Nat.lt_or_ge (b % 30) 1 with h | h
      · have : b % 30 = 0 := by omega
        simp [this]
        omega
      · have : ¬ b % 30 = 0 := by omega
        simp [this]
        omega

/-- The yield counter advances by exactly the number of executed iterations
whose counter value is a multiple of 30 and which did not break (the break
jumps over the `vTaskDelay` call). -/
lemma calibLoop_yields (measure : ℕ → ℚ → ℚ) (cal step : ℚ) :
    ∀ fuel it r y,
      (calibLoop measure cal step fuel it r y).yields + countM30 it
        = y + countM30 (calibLoop measure cal step fuel it r y).it := by
  intro fuel
  induction fuel with
  | zero =>
      intro it r y
      simp [calibLoop]
  | succ fuel ih =>
      intro it r y
      by_cases hc : crossed step (measure (it + 1) (r + step)) cal
      · have hstate : calibLoop measure cal step (fuel + 1) it r y
            = ⟨it, it + 1, r + step, y⟩ := by
          rw [calibLoop_succ, if_pos hc]
        rw [hstate]
      · have hstate : calibLoop measure cal step (fuel + 1) it r y
            = calibLoop measure cal step fuel (it + 1) (r + step)
                (if it % 30 = 0 then y + 1 else y) := by
          rw [calibLoop_succ, if_neg hc]
        rw [hstate]
        have hrec := ih (it + 1) (r + step) (if it % 30 = 0 then y + 1 else y)
        rw [countM30] at hrec
        by_cases h : it % 30 = 0
        · simp [h] at hrec ⊢
          omega
        · simp [h] at hrec ⊢
          omega

lemma calibrateRZero_state_eq (measure : ℕ → ℚ → ℚ) (cal r0 : ℚ) :
    (calibrateRZero measure cal r0).state
      = calibLoop measure cal (calibStep measure cal r0) 10000 0 r0 0 := rfl

lemma calibrateRZero_success_eq (measure : ℕ → ℚ → ℚ) (cal r0 : ℚ) :
    (calibrateRZero measure cal r0).success
      = decide ((calibrateRZero measure cal r0).state.it < 1000) := rfl

/-- The concrete `mTwo` run: the loop body executes twice, breaks at loop
counter 1, leaves `_rzero` at `0 + 2·(1/10) = 1/5` and yields once (at
iteration 0). -/
lemma calibLoop_mTwo :
    calibLoop mTwo 1 (1 / 10) 10000 0 0 0 = ⟨1, 2, 1 / 5, 1⟩ := by
  have e1 : calibLoop mTwo 1 (1 / 10) 10000 0 0 0
      = calibLoop mTwo 1 (1 / 10) 9999 1 (0 + 1 / 10) 1 := by
    rw [show (10000 : ℕ) = 9999 + 1 from rfl, calibLoop_succ,
      if_neg (by norm_num [crossed, mTwo])]
    norm_num
  have e2 : calibLoop mTwo 1 (1 / 10) 9999 1 (0 + 1 / 10) 1
      = ⟨1, 2, 0 + 1 / 10 + 1 / 10, 1⟩ := by
    rw [show (9999 : ℕ) = 9998 + 1 from rfl, calibLoop_succ,
      if_pos (by norm_num [crossed, mTwo])]
  rw [e1, e2]
  norm_num

lemma calibStep_mTwo : calibStep mTwo 1 0 = 1 / 10 := by
  norm_num [calibStep, mTwo]

lemma calibrateRZero_mTwo :
    calibrateRZero mTwo 1 0 = ⟨true, 1, 2, 1 / 5, 1⟩ := by
  have h : calibrateRZero mTwo 1 0
      = ⟨decide ((calibLoop mTwo 1 (calibStep mTwo 1 0) 10000 0 0 0).it < 1000),
          calibLoop mTwo 1 (calibStep mTwo 1 0) 10000 0 0 0⟩ := rfl
  rw [h, calibStep_mTwo, calibLoop_mTwo]
  simp

/-- A run whose measurement is stuck at 0 with target 1 never crosses, so
the loop exhausts all 10000 iterations. -/
lemma calibrateRZero_mZero_it :
    (calibrateRZero (fun _ _ => (0 : ℚ)) 1 0).state.it = 10000 := by
  have hstep : calibStep (fun _ _ => (0 : ℚ)) 1 0 = 1 / 10 := by
    norm_num [calibStep]
  rw [calibrateRZero_state_eq, hstep]
  rcases calibLoop_exit (fun _ _ => (0 : ℚ)) 1 (1 / 10) 10000 0 0 0 with
    ⟨_, _, hcross⟩ | ⟨h1, _⟩
  · rw [show crossed (1 / 10)
        ((fun _ _ => (0 : ℚ))
          (calibLoop (fun _ _ => (0 : ℚ)) 1 (1 / 10) 10000 0 0 0).iters
          (calibLoop (fun _ _ => (0 : ℚ)) 1 (1 / 10) 10000 0 0 0).rzero) 1 = false
      from by norm_num [crossed]] at hcross
    exact absurd hcross (by simp)
  · simpa using h1

lemma calibrateRZero_rzero_linear (measure : ℕ → ℚ → ℚ) (cal r0 : ℚ) :
    (calibrateRZero measure cal r0).state.rzero
      = r0 + ((calibrateRZero measure cal r0).state.iters : ℚ)
          * calibStep measure cal r0 := by
  rw [calibrateRZero_state_eq]
  obtain ⟨k, _, hiters, hrz⟩ :=
    calibLoop_iters_rzero measure cal (calibStep measure cal r0) 10000 0 r0 0
  rw [hiters, hrz]
  norm_num

lemma calibrateRZero_iters_pos (measure : ℕ → ℚ → ℚ) (cal r0 : ℚ) :
    1 ≤ (calibrateRZero measure cal r0).state.iters := by
  rw [calibrateRZero_state_eq]
  rcases calibLoop_exit measure cal (calibStep measure cal r0) 10000 0 r0 0 with
    ⟨_, h2, _⟩ | ⟨_, h2⟩ <;> omega

lemma calibStep_ne_zero (measure : ℕ → ℚ → ℚ) (cal r0 : ℚ) :
    calibStep measure cal r0 ≠ 0 := by
  unfold calibStep
  split <;> norm_num

lemma calibrateRZero_rzero_ne (measure : ℕ → ℚ → ℚ) (cal r0 : ℚ) :
    (calibrateRZero measure cal r0).state.rzero ≠ r0 := by
  rw [calibrateRZero_rzero_linear]
  intro hcontra
  have h0 : ((calibrateRZero measure cal r0).state.iters : ℚ)
      * calibStep measure cal r0 = 0 := by linarith
  rcases mul_eq_zero.mp h0 with h | h
  · have := calibrateRZero_iters_pos measure cal r0
    have : ((calibrateRZero measure cal r0).state.iters : ℚ) ≠ 0 :=
      Nat.cast_ne_zero.mpr (by omega)
    exact this h
  · exact calibStep_ne_zero measure cal r0 h

/-- Claim C7: for all inputs `t` and `h`, `getCorrectionFactor` returns
`CORA·t² − CORB·t + CORC − (h − 33)·CORD`; it is a total pure function of
its arguments (the embedding is a plain function of `t` and `h`, so
determinism and absence of side effects hold by construction). -/
theorem getCorrectionFactor_formula (CORA CORB CORC CORD t h : ℚ) :
    getCorrectionFactor CORA CORB CORC CORD t h
      = CORA * t ^ 2 - CORB * t + CORC - (h - 33) * CORD := by
  unfold getCorrectionFactor; ring

/-- Claim C6: for every temperature `t`, humidity `h` and fixed pair of raw
samples, `getCorrectedResistance t h` is exactly `getResistance` divided by
`getCorrectionFactor t h`; moreover, whenever the correction factor is
nonzero, multiplying back by it recovers the raw resistance exactly. -/
theorem getCorrectedResistance_eq_div (CORA CORB CORC CORD : ℚ) (a aref : ℕ) (t h : ℚ) :
    getCorrectedResistance CORA CORB CORC CORD a aref t h
      = getResistance a aref / getCorrectionFactor CORA CORB CORC CORD t h
    ∧ (getCorrectionFactor CORA CORB CORC CORD t h ≠ 0 →
        getCorrectedResistance CORA CORB CORC CORD a aref t h
          * getCorrectionFactor CORA CORB CORC CORD t h = getResistance a aref) := by
  refine ⟨rfl, fun hne => ?_⟩
  unfold getCorrectedResistance
  field_simp

/-- Witness for the hypothesis inside `getCorrectedResistance_eq_div`,
at the concrete input `CORA = 0`, `CORB = 0`, `CORC = 1`, `CORD = 0`,
samples `a = 1`, `aref = 1`, `t = 0`, `h = 33`: the factor is `1 ≠ 0` and
the product recovers `getResistance 1 1`. -/
theorem getCorrectedResistance_eq_div_witness :
    getCorrectedResistance 0 0 1 0 1 1 0 33 * getCorrectionFactor 0 0 1 0 0 33
      = getResistance 1 1 :=
  (getCorrectedResistance_eq_div 0 0 1 0 1 1 0 33).2 (by norm_num [getCorrectionFactor])

/-- Claim C8: `getResistance` normalizes each of the two raw samples by
multiplying by 2.45 (= 49/20) and dividing by 4095, and returns
`3 · Vref · 10.0 / Vsensor − 2`, the subtraction of 2 applied after the
division, with the load resistor fixed at `10.0`; consequently, for a
nonzero sensor sample the two normalizations cancel and the result equals
`30·aref/a − 2`. -/
theorem getResistance_formula (a aref : ℕ) :
    getResistance a aref
      = 3 * ((aref : ℚ) * (49 / 20) / 4095) * 10 / ((a : ℚ) * (49 / 20) / 4095) - 2
    ∧ (a ≠ 0 → getResistance a aref = 30 * (aref : ℚ) / (a : ℚ) - 2) := by
  constructor
  · rfl
  · intro ha
    have ha' : (a : ℚ) ≠ 0 := Nat.cast_ne_zero.mpr ha
    unfold getResistance adcNorm
    field_simp
    ring

/-- Witness for the hypothesis inside `getResistance_formula`, at the
concrete samples `a = 1`, `aref = 1`: the resistance evaluates to
`30·1/1 − 2 = 28`. -/
theorem getResistance_formula_witness :
    getResistance 1 1 = 30 * (1 : ℚ) / (1 : ℚ) - 2 :=
  (getResistance_formula 1 1).2 (by decide)

/-- Counterexample to claim C9 as stated: when the sensor-channel sample is
zero AND the reference-channel sample is also zero, the unguarded division
is `0/0`, so the result is NaN, not an infinite value. -/
theorem getResistanceFP_zero_zero_nan :
    getResistanceFP 0 0 = FP.nan ∧ getResistanceFP 0 0 ≠ FP.inf
      ∧ getResistanceFP 0 0 ≠ FP.ninf := by
  have h : getResistanceFP 0 0 = FP.nan := by
    simp [getResistanceFP, fmul, fdiv, fsub]
  exact ⟨h, by simp [h], by simp [h]⟩

/-- Claim C9, amended: a zero sensor-channel sample makes `getResistance`
perform an unguarded division by zero and return a non-finite IEEE value:
`+∞` whenever the reference-channel sample is nonzero, and NaN when the
reference sample is also zero (`0/0`).  In both cases the function is total
— it neither traps nor special-cases the input (the embedding is a total
function with no guard on `a`). -/
theorem getResistanceFP_zero_sample (aref : ℕ) :
    (0 < aref → getResistanceFP 0 aref = FP.inf)
      ∧ (aref = 0 → getResistanceFP 0 aref = FP.nan) := by
  constructor
  · intro h
    simp [getResistanceFP, fmul, fdiv, fsub, h]
  · intro h
    subst h
    simp [getResistanceFP, fmul, fdiv, fsub]

/-- Witness for `getResistanceFP_zero_sample` at the concrete reference
sample `aref = 1`: the result is `+∞`. -/
theorem getResistanceFP_zero_sample_witness :
    getResistanceFP 0 1 = FP.inf :=
  (getResistanceFP_zero_sample 1).1 (by norm_num)

/-- Claim C1: `calibrateRZero` returns `true` exactly when the loop stopped
with the loop counter strictly below 1000, although the loop itself may run
up to 10000 iterations (`it ≤ 10000`, and the stuck constant-measurement
run really reaches 10000); in particular any run whose final counter is
1000 or more returns `false`. -/
theorem calibrateRZero_success_iff (measure : ℕ → ℚ → ℚ) (cal r0 : ℚ) :
    ((calibrateRZero measure cal r0).success = true ↔
      (calibrateRZero measure cal r0).state.it < 1000)
    ∧ (calibrateRZero measure cal r0).state.it ≤ 10000
    ∧ (1000 ≤ (calibrateRZero measure cal r0).state.it →
        (calibrateRZero measure cal r0).success = false)
    ∧ (calibrateRZero (fun _ _ => (0 : ℚ)) 1 0).state.it = 10000
    ∧ (calibrateRZero (fun _ _ => (0 : ℚ)) 1 0).success = false := by
  have hiff : (calibrateRZero measure cal r0).success = true ↔
      (calibrateRZero measure cal r0).state.it < 1000 := by
    rw [calibrateRZero_success_eq]
    exact decide_eq_true_iff
  have hle : (calibrateRZero measure cal r0).state.it ≤ 10000 := by
    rw [calibrateRZero_state_eq]
    rcases calibLoop_exit measure cal (calibStep measure cal r0) 10000 0 r0 0 with
      ⟨h1, _, _⟩ | ⟨h1, _⟩ <;> omega
  refine ⟨hiff, hle, ?_, calibrateRZero_mZero_it, ?_⟩
  · intro hge
    rw [calibrateRZero_success_eq]
    simp
    omega
  · rw [calibrateRZero_success_eq, calibrateRZero_mZero_it]
    simp

/-- Counterexample to claim C2 as stated: in the `mTwo` run the loop body
executes `N = 2` times and `vTaskDelay` is invoked once (at iteration 0),
but `floor(N/30) = 0`. -/
theorem calibrateRZero_yields_neq_floor :
    (calibrateRZero mTwo 1 0).state.iters = 2
    ∧ (calibrateRZero mTwo 1 0).state.yields = 1
    ∧ (calibrateRZero mTwo 1 0).state.yields
        ≠ (calibrateRZero mTwo 1 0).state.iters / 30 := by
  rw [calibrateRZero_mTwo]
  norm_num

/-- Claim C2, amended: `vTaskDelay` is invoked once for each executed
iteration whose counter is a multiple of 30 and which does not break (the
break jumps over the yield), i.e. exactly `⌈it/30⌉ = floor((it + 29)/30)`
times where `it` is the final loop-counter value; for a run of `N`
iterations ending in a break this is `⌈(N−1)/30⌉`, not `floor(N/30)`, and
for an exhausted run (`N = 10000`) it is 334, not 333. -/
theorem calibrateRZero_yield_cadence (measure : ℕ → ℚ → ℚ) (cal r0 : ℚ) :
    (calibrateRZero measure cal r0).state.yields
      = ((calibrateRZero measure cal r0).state.it + 29) / 30 := by
  rw [calibrateRZero_state_eq]
  have h := calibLoop_yields measure cal (calibStep measure cal r0) 10000 0 r0 0
  simp only [countM30_eq] at h
  omega

/-- Claim C3: the adjustment direction is chosen once before the loop from
the initial measurement (`−0.1` if it exceeds the target, else `+0.1`) and
is never changed (`_rzero` ends at `r0 + iters·step`), and the loop stops
exactly when a fresh measurement crosses the target in that direction
(`≤` for a negative step, `≥` for a positive one) — every earlier
measurement fails the test — or when the 10000-iteration cap is reached. -/
theorem calibrateRZero_direction_termination (measure : ℕ → ℚ → ℚ) (cal r0 : ℚ) :
    calibStep measure cal r0 = (if cal < measure 0 r0 then -(1 / 10) else 1 / 10)
    ∧ (calibrateRZero measure cal r0).state.rzero
        = r0 + ((calibrateRZero measure cal r0).state.iters : ℚ)
            * calibStep measure cal r0
    ∧ (calibrateRZero measure cal r0).state.iters ≤ 10000
    ∧ ((calibrateRZero measure cal r0).state.it < 10000 →
        crossed (calibStep measure cal r0)
          (measure (calibrateRZero measure cal r0).state.iters
            (calibrateRZero measure cal r0).state.rzero) cal = true)
    ∧ (∀ d, 1 ≤ d → d < (calibrateRZero measure cal r0).state.iters →
        crossed (calibStep measure cal r0)
          (measure d (r0 + (d : ℚ) * calibStep measure cal r0)) cal = false) := by
  refine ⟨rfl, calibrateRZero_rzero_linear measure cal r0, ?_, ?_, ?_⟩
  · rw [calibrateRZero_state_eq]
    obtain ⟨k, hk, hiters, _⟩ :=
      calibLoop_iters_rzero measure cal (calibStep measure cal r0) 10000 0 r0 0
    omega
  · intro hlt
    rw [calibrateRZero_state_eq] at hlt ⊢
    rcases calibLoop_exit measure cal (calibStep measure cal r0) 10000 0 r0 0 with
      ⟨_, _, h3⟩ | ⟨h1, _⟩
    · exact h3
    · omega
  · intro d hd hlt
    rw [calibrateRZero_state_eq] at hlt
    have h := calibLoop_no_early_cross measure cal (calibStep measure cal r0)
      10000 0 r0 0 d hd (by omega)
    simpa using h

/-- Witness for `calibrateRZero_direction_termination` at the concrete run
`mTwo`, target 1, initial `_rzero` 0: the measurement of iteration 0 fails
the break test, and the run breaks (`it = 1 < 10000`) with the final
measurement passing it. -/
theorem calibrateRZero_direction_termination_witness :
    (1 < (calibrateRZero mTwo 1 0).state.iters
      ∧ crossed (calibStep mTwo 1 0)
          (mTwo 1 ((0 : ℚ) + ((1 : ℕ) : ℚ) * calibStep mTwo 1 0)) 1 = false)
    ∧ ((calibrateRZero mTwo 1 0).state.it < 10000
      ∧ crossed (calibStep mTwo 1 0)
          (mTwo (calibrateRZero mTwo 1 0).state.iters
            (calibrateRZero mTwo 1 0).state.rzero) 1 = true) := by
  have h1 : 1 < (calibrateRZero mTwo 1 0).state.iters := by
    rw [calibrateRZero_mTwo]
    norm_num
  have h2 : (calibrateRZero mTwo 1 0).state.it < 10000 := by
    rw [calibrateRZero_mTwo]
    norm_num
  exact ⟨⟨h1, (calibrateRZero_direction_termination mTwo 1 0).2.2.2.2 1
            (le_refl 1) h1⟩,
         ⟨h2, (calibrateRZero_direction_termination mTwo 1 0).2.2.2.1 h2⟩⟩

/-- Claim C4: `calibrateRZero` always mutates `_rzero` and never rolls it
back: the loop body runs at least once, the final `_rzero` is
`r0 + iters·step` — the furthest value reached by the monotone search
(every intermediate value `r0 + k·step`, `k ≤ iters`, is no farther from
`r0`) — and it differs from the pre-call value on every run, failing ones
included. -/
theorem calibrateRZero_always_mutates (measure : ℕ → ℚ → ℚ) (cal r0 : ℚ) :
    (calibrateRZero measure cal r0).state.rzero
        = r0 + ((calibrateRZero measure cal r0).state.iters : ℚ)
            * calibStep measure cal r0
    ∧ 1 ≤ (calibrateRZero measure cal r0).state.iters
    ∧ (calibrateRZero measure cal r0).state.rzero ≠ r0
    ∧ (∀ k, k ≤ (calibrateRZero measure cal r0).state.iters →
        |(k : ℚ) * calibStep measure cal r0|
          ≤ |(calibrateRZero measure cal r0).state.rzero - r0|) := by
  refine ⟨calibrateRZero_rzero_linear measure cal r0,
    calibrateRZero_iters_pos measure cal r0,
    calibrateRZero_rzero_ne measure cal r0, ?_⟩
  intro k hk
  rw [calibrateRZero_rzero_linear]
  have hcast : ((k : ℚ)) ≤ ((calibrateRZero measure cal r0).state.iters : ℚ) := by
    exact_mod_cast hk
  calc |(k : ℚ) * calibStep measure cal r0|
      = (k : ℚ) * |calibStep measure cal r0| := by
        rw [abs_mul, abs_of_nonneg (Nat.cast_nonneg k)]
    _ ≤ ((calibrateRZero measure cal r0).state.iters : ℚ)
          * |calibStep measure cal r0| := by
        exact mul_le_mul_of_nonneg_right hcast (abs_nonneg _)
    _ = |r0 + ((calibrateRZero measure cal r0).state.iters : ℚ)
          * calibStep measure cal r0 - r0| := by
        have hge : (0 : ℚ) ≤ ((calibrateRZero measure cal r0).state.iters : ℚ) :=
          Nat.cast_nonneg _
        rw [add_sub_cancel_left, abs_mul, abs_of_nonneg hge]

/-- Witness for `calibrateRZero_always_mutates` at the `mTwo` run and
`k = 1 ≤ iters`: the intermediate `_rzero` is no farther from the start
than the final one. -/
theorem calibrateRZero_always_mutates_witness :
    |((1 : ℕ) : ℚ) * calibStep mTwo 1 0|
      ≤ |(calibrateRZero mTwo 1 0).state.rzero - 0| :=
  (calibrateRZero_always_mutates mTwo 1 0).2.2.2 1
    (by rw [calibrateRZero_mTwo]; norm_num)

/-- Claim C5: `getRZero` back-solves the power law —
`rZero' = Rs · (ATMOCO2/PARA)^(1/PARB)` — and feeding that value back as
the stored calibration constant makes `getPPM` on the same resistance
sample reproduce exactly `ATMOCO2` (the real-number model is exact, hence
a fortiori within any floating-point tolerance), for all positive
constants and samples. -/
theorem getPPM_getRZero_roundtrip (PARA PARB ATMOCO2 rs : ℝ)
    (hPARA : 0 < PARA) (hPARB : PARB ≠ 0) (hATMO : 0 < ATMOCO2)
    (hrs : 0 < rs) :
    getRZero PARA PARB ATMOCO2 rs = rs * (ATMOCO2 / PARA) ^ ((1 : ℝ) / PARB)
    ∧ getPPM PARA PARB rs (getRZero PARA PARB ATMOCO2 rs) = ATMOCO2 := by
  refine ⟨rfl, ?_⟩
  unfold getPPM getRZero
  have hx : (0 : ℝ) < ATMOCO2 / PARA := div_pos hATMO hPARA
  set q : ℝ := (ATMOCO2 / PARA) ^ ((1 : ℝ) / PARB) with hqdef
  have hq : 0 < q := Real.rpow_pos_of_pos hx _
  have h1 : rs / (rs * q) = q⁻¹ := by
    rw [div_mul_eq_div_div, div_self hrs.ne', one_div]
  rw [h1, Real.inv_rpow hq.le, Real.rpow_neg hq.le, inv_inv, hqdef,
    ← Real.rpow_mul hx.le, one_div_mul_cancel hPARB, Real.rpow_one]
  field_simp

/-- Witness for `getPPM_getRZero_roundtrip` at the concrete constants
`PARA = 1`, `PARB = 1`, `ATMOCO2 = 2` and sample `rs = 1`. -/
theorem getPPM_getRZero_roundtrip_witness :
    (0 : ℝ) < 1 ∧ (1 : ℝ) ≠ 0 ∧ (0 : ℝ) < 2
    ∧ getPPM 1 1 1 (getRZero 1 1 2 1) = 2 :=
  ⟨one_pos, one_ne_zero, two_pos,
    (getPPM_getRZero_roundtrip 1 1 2 1 one_pos one_ne_zero two_pos one_pos).2⟩

/-- Claim C10: the first loop iteration adds the step to `_rzero` before
any convergence comparison, so `_rzero` never stays at its pre-call value;
when the initial measurement already equals the target the step is `+0.1`,
and the comparison that can stop the loop is made against the fresh
measurement taken at the moved value `r0 + 0.1` — if that fresh measurement
is `≥` the target, the run stops after exactly one body execution with
`_rzero = r0 + 0.1`. -/
theorem calibrateRZero_first_moves (measure : ℕ → ℚ → ℚ) (cal r0 : ℚ)
    (h : measure 0 r0 = cal) :
    calibStep measure cal r0 = 1 / 10
    ∧ 1 ≤ (calibrateRZero measure cal r0).state.iters
    ∧ (calibrateRZero measure cal r0).state.rzero ≠ r0
    ∧ (cal ≤ measure 1 (r0 + 1 / 10) →
        (calibrateRZero measure cal r0).state = ⟨0, 1, r0 + 1 / 10, 0⟩) := by
  have hstep : calibStep measure cal r0 = 1 / 10 := by
    unfold calibStep
    rw [h, if_neg (lt_irrefl cal)]
  refine ⟨hstep, calibrateRZero_iters_pos measure cal r0,
    calibrateRZero_rzero_ne measure cal r0, ?_⟩
  intro hge
  have hcross : crossed (1 / 10) (measure (0 + 1) (r0 + 1 / 10)) cal = true := by
    unfold crossed
    rw [if_neg (by norm_num)]
    simpa using hge
  rw [calibrateRZero_state_eq, hstep,
    show (10000 : ℕ) = 9999 + 1 from rfl, calibLoop_succ, if_pos hcross]

/-- Witness for `calibrateRZero_first_moves` with the constant measurement
stream 5, target 5, initial `_rzero` 0: the initial measurement equals the
target, the fresh measurement at `0 + 0.1` is `≥` the target, and the run
stops after one body execution with `_rzero = 0.1`. -/
theorem calibrateRZero_first_moves_witness :
    calibStep (fun _ _ => (5 : ℚ)) 5 0 = 1 / 10
    ∧ (calibrateRZero (fun _ _ => (5 : ℚ)) 5 0).state = ⟨0, 1, 0 + 1 / 10, 0⟩ :=
  ⟨(calibrateRZero_first_moves (fun _ _ => (5 : ℚ)) 5 0 rfl).1,
   (calibrateRZero_first_moves (fun _ _ => (5 : ℚ)) 5 0 rfl).2.2.2 (le_refl 5)⟩

end MQ135
